import Mathlib

/-!
# Verification of the ping_graph_gui sampling engine (`src/main.rs`)

Shallow embedding of the latency-sampling program: the stored sample series
and `calculate_ping_stats`, the consumer's drain loop and Reset handler from
`PingApp::update`, and the background sampler loop spawned in `main`.

Modelling conventions:
* An `f64` latency value is embedded as `Option ℚ`: `none` models the
  `f64::NAN` "lost ping" sentinel, `some q` a real (non-NaN) value.  Every
  real value the program ever stores is a nonnegative whole-millisecond
  count (`duration.as_millis() as f64`), and the only arithmetic performed
  on them (comparison, summation, one division) is exact on such values,
  so `ℚ` is a faithful carrier.
* The `f64::INFINITY` / `f64::NEG_INFINITY` sentinels used as the initial
  accumulators inside `calculate_ping_stats` are embedded as `⊤ : WithTop ℚ`
  and `⊥ : WithBot ℚ`; the Rust comparisons on them coincide with the
  `WithTop`/`WithBot` order on these values.
* Wall-clock time (`Instant`) is an explicit natural-number clock counting
  nanoseconds; `Duration::as_millis` is truncating division by 10^6.
-/

namespace PingGraph

/-- One stored plot entry, Rust `[f64; 2]`: `(time, ping)` where `time` is the
x-coordinate (`self.ping_times.len() as f64` at push time) and `ping` is the
latency, `none` standing for the `f64::NAN` lost marker. -/
abbrev Entry : Type := ℚ × Option ℚ

/-- One iteration of the `for &[_time, ping] in ping_times.iter()` loop body of
`calculate_ping_stats` (src/main.rs:240-252), acting on the accumulator
`(min_ping, max_ping, total_ping, count)`.  A `none` (NaN) entry is skipped
(`if ping.is_nan() { continue; }`). -/
def statsStep : (WithTop ℚ × WithBot ℚ × ℚ × ℕ) → Entry → (WithTop ℚ × WithBot ℚ × ℚ × ℕ)
  | (min_ping, max_ping, total_ping, count), (_time, none) =>
      (min_ping, max_ping, total_ping, count)
  | (min_ping, max_ping, total_ping, count), (_time, some ping) =>
      ((if (ping : WithTop ℚ) < min_ping then (ping : WithTop ℚ) else min_ping),
       (if (ping : WithBot ℚ) > max_ping then (ping : WithBot ℚ) else max_ping),
       total_ping + ping,
       count + 1)

/-- `calculate_ping_stats` (src/main.rs:230-261).  Accumulators start at
`f64::INFINITY` (= `⊤`), `f64::NEG_INFINITY` (= `⊥`), `0.0`, `0`.  When
`count ≠ 0` the min/max accumulators are necessarily finite, and `untop' 0` /
`unbot' 0` extract the underlying value that the Rust code returns directly. -/
def calculate_ping_stats (ping_times : List Entry) : Option (ℚ × ℚ × ℚ) :=
  if ping_times.isEmpty then none
  else
    let acc := ping_times.foldl statsStep (⊤, ⊥, 0, 0)
    let min_ping := acc.1
    let max_ping := acc.2.1
    let total_ping := acc.2.2.1
    let count := acc.2.2.2
    if count = 0 then none
    else some (min_ping.untop' 0, max_ping.unbot' 0, total_ping / (count : ℚ))

/-- The non-lost (non-NaN) latency values of a series, in order. -/
def successfulValues (ping_times : List Entry) : List ℚ :=
  ping_times.filterMap Prod.snd

lemma ite_lt_eq_min {α : Type _} [LinearOrder α] (a b : α) :
    (if a < b then a else b) = min a b := by
  split
  · exact (min_eq_left (le_of_lt (by assumption))).symm
  · exact (min_eq_right (not_lt.mp (by assumption))).symm

lemma ite_gt_eq_max {α : Type _} [LinearOrder α] (a b : α) :
    (if a > b then a else b) = max b a := by
  split
  · exact (max_eq_right (le_of_lt (by assumption))).symm
  · exact (max_eq_left (not_lt.mp (by assumption))).symm

/-- Closed form of the accumulator loop of `calculate_ping_stats`. -/
lemma foldl_statsStep (l : List Entry) (m : WithTop ℚ) (M : WithBot ℚ) (t : ℚ) (c : ℕ) :
    l.foldl statsStep (m, M, t, c) =
      (min m (successfulValues l).minimum,
       max M (successfulValues l).maximum,
       t + (successfulValues l).sum,
       c + (successfulValues l).length) := by
  induction l generalizing m M t c with
  | nil =>
      simp [successfulValues, List.minimum_nil, List.maximum_nil,
        min_eq_left le_top, max_eq_left bot_le]
  | cons e l ih =>
      obtain ⟨time, val⟩ := e
      cases val with
      | none =>
          rw [List.foldl_cons]
          show l.foldl statsStep (m, M, t, c) = _
          rw [ih]
          simp [successfulValues]
      | some ping =>
          rw [List.foldl_cons]
          show l.foldl statsStep
              ((if (ping : WithTop ℚ) < m then (ping : WithTop ℚ) else m),
               (if (ping : WithBot ℚ) > M then (ping : WithBot ℚ) else M),
               t + ping, c + 1) = _
          rw [ih, ite_lt_eq_min, ite_gt_eq_max]
          have hvals : successfulValues ((time, some ping) :: l) =
              ping :: successfulValues l := by
            simp [successfulValues]
          rw [hvals, List.minimum_cons, List.maximum_cons, List.sum_cons,
            List.length_cons]
          refine congrArg₂ Prod.mk ?_ (congrArg₂ Prod.mk ?_ (congrArg₂ Prod.mk ?_ ?_))
          · rw [min_comm (ping : WithTop ℚ) m, min_assoc]
          · rw [max_comm M (ping : WithBot ℚ), ← max_assoc, max_comm (ping : WithBot ℚ) M,
              max_assoc]
          · ring
          · omega

lemma stats_eq_none_iff (pt : List Entry) :
    calculate_ping_stats pt = none ↔ successfulValues pt = [] := by
  unfold calculate_ping_stats
  rcases pt with _ | ⟨e, l⟩
  · simp [successfulValues]
  · rw [if_neg (by simp)]
    rw [foldl_statsStep]
    constructor
    · intro h
      by_contra hne
      rw [if_neg (by simpa [Nat.zero_add, List.length_eq_zero] using hne)] at h
      exact Option.some_ne_none _ h
    · intro h
      rw [if_pos (by simp [h])]

lemma stats_eq_some (pt : List Entry) (hL : successfulValues pt ≠ []) :
    calculate_ping_stats pt =
      some ((successfulValues pt).minimum.untop' 0,
            (successfulValues pt).maximum.unbot' 0,
            (successfulValues pt).sum / ((successfulValues pt).length : ℚ)) := by
  have hpt : pt ≠ [] := by
    intro h
    exact hL (by simp [successfulValues, h])
  unfold calculate_ping_stats
  rw [if_neg (by simpa [List.isEmpty_iff] using hpt)]
  rw [foldl_statsStep]
  rw [if_neg (by simpa [Nat.zero_add, List.length_eq_zero] using hL)]
  have hmin : min (⊤ : WithTop ℚ) (successfulValues pt).minimum =
      (successfulValues pt).minimum := min_eq_right le_top
  have hmax : max (⊥ : WithBot ℚ) (successfulValues pt).maximum =
      (successfulValues pt).maximum := max_eq_right bot_le
  rw [hmin, hmax, zero_add, Nat.zero_add]

lemma minimum_perm {l₁ l₂ : List ℚ} (h : l₁.Perm l₂) : l₁.minimum = l₂.minimum :=
  le_antisymm
    (List.le_minimum_of_forall_le fun _ ha => List.minimum_le_of_mem' (h.mem_iff.mpr ha))
    (List.le_minimum_of_forall_le fun _ ha => List.minimum_le_of_mem' (h.mem_iff.mp ha))

lemma maximum_perm {l₁ l₂ : List ℚ} (h : l₁.Perm l₂) : l₁.maximum = l₂.maximum :=
  le_antisymm
    (List.maximum_le_of_forall_le fun _ ha => List.le_maximum_of_mem' (h.mem_iff.mp ha))
    (List.maximum_le_of_forall_le fun _ ha => List.le_maximum_of_mem' (h.mem_iff.mpr ha))

/-- **C3.** `calculate_ping_stats` returns `none` exactly when the series has no
non-lost (non-NaN) sample; otherwise it returns exactly the minimum, the
maximum and the arithmetic mean of the non-lost values, lost samples playing
no part in any of the three statistics. -/
theorem stats_characterization (pt : List Entry) :
    (calculate_ping_stats pt = none ↔ successfulValues pt = []) ∧
    (∀ v vs, successfulValues pt = v :: vs →
      ∃ m M : ℚ,
        ((m : WithTop ℚ) = (v :: vs).minimum ∧ (M : WithBot ℚ) = (v :: vs).maximum) ∧
        calculate_ping_stats pt = some (m, M, (v :: vs).sum / ((v :: vs).length : ℚ))) := by
  refine ⟨stats_eq_none_iff pt, ?_⟩
  intro v vs h
  obtain ⟨m, hm⟩ :=
    WithTop.ne_top_iff_exists.mp (List.minimum_ne_top_of_ne_nil (l := v :: vs) (by simp))
  obtain ⟨M, hM⟩ :=
    WithBot.ne_bot_iff_exists.mp (List.maximum_ne_bot_of_ne_nil (l := v :: vs) (by simp))
  refine ⟨m, M, ⟨hm, hM⟩, ?_⟩
  rw [stats_eq_some pt (by simp [h]), h, ← hm, ← hM, WithTop.untop'_coe, WithBot.unbot'_coe]

/-- Witness for C3 on the series `[(0, 10 ms), (1, lost), (2, 30 ms)]`. -/
theorem stats_characterization_witness :
    ∃ m M : ℚ,
      ((m : WithTop ℚ) = ([(10 : ℚ), 30]).minimum ∧
        (M : WithBot ℚ) = ([(10 : ℚ), 30]).maximum) ∧
      calculate_ping_stats [((0 : ℚ), some 10), ((1 : ℚ), none), ((2 : ℚ), some 30)] =
        some (m, M, ([(10 : ℚ), 30]).sum / (([(10 : ℚ), 30]).length : ℚ)) :=
  (stats_characterization [((0 : ℚ), some 10), ((1 : ℚ), none), ((2 : ℚ), some 30)]).2
    10 [30] rfl

/-- **C4.** `calculate_ping_stats` is invariant under permutation of the series
(best, worst and average all agree exactly — in particular within any
floating-point summation tolerance) and is deterministic/idempotent: computing
it twice on an unchanged series gives identical results. -/
theorem stats_perm_invariant_and_idempotent :
    (∀ pt₁ pt₂ : List Entry, pt₁.Perm pt₂ →
        calculate_ping_stats pt₁ = calculate_ping_stats pt₂) ∧
    (∀ pt : List Entry, calculate_ping_stats pt = calculate_ping_stats pt) := by
  refine ⟨?_, fun _ => rfl⟩
  intro pt₁ pt₂ hp
  have hv : (successfulValues pt₁).Perm (successfulValues pt₂) := hp.filterMap Prod.snd
  by_cases hnil : successfulValues pt₁ = []
  · have h₂ : successfulValues pt₂ = [] := ((hnil ▸ hv).symm).eq_nil
    rw [(stats_eq_none_iff pt₁).mpr hnil, (stats_eq_none_iff pt₂).mpr h₂]
  · have h₂ : successfulValues pt₂ ≠ [] := by
      intro h
      exact hnil (h ▸ hv).eq_nil
    rw [stats_eq_some pt₁ hnil, stats_eq_some pt₂ h₂, minimum_perm hv, maximum_perm hv,
      hv.sum_eq, hv.length_eq]

/-- Witness for C4: swapping the two entries of a concrete series leaves the
statistics unchanged. -/
theorem stats_perm_invariant_witness :
    calculate_ping_stats [((0 : ℚ), some 10), ((1 : ℚ), some 30)] =
      calculate_ping_stats [((1 : ℚ), some 30), ((0 : ℚ), some 10)] :=
  stats_perm_invariant_and_idempotent.1 _ _
    (List.Perm.swap ((1 : ℚ), some (30 : ℚ)) ((0 : ℚ), some (10 : ℚ)) [])

/-- The consumer-side state of `PingApp` (src/main.rs:11-22) restricted to the
fields the drain loop, the Reset handler and the stats label read or write.
`last_ping` (an `Instant` used only for UI pacing), the channel receiver and
the Y-axis widget state are not touched by any verified operation and are
omitted. -/
structure PingApp where
  ping_times : List Entry
  stats : Option (ℚ × ℚ × ℚ)
  ping_times_updated : Bool
  loss_count : ℕ
  total_pings : ℕ
deriving DecidableEq

/-- The `Reset` button handler (src/main.rs:71-75): clears `ping_times`,
restarts `last_ping` (not modelled) and marks the series updated.  Note that
it touches neither `loss_count` nor `total_pings`. -/
def resetApp (s : PingApp) : PingApp :=
  { s with ping_times := [], ping_times_updated := true }

/-- One iteration of the drain loop
`while let Ok(ping_time) = self.rx.try_recv()` (src/main.rs:83-95),
processing one received value: `time` is the current length of the series,
a NaN (`none`) value additionally bumps `loss_count`. -/
def drainStep (s : PingApp) (ping_time : Option ℚ) : PingApp :=
  let time : ℚ := s.ping_times.length
  match ping_time with
  | none =>
      { s with total_pings := s.total_pings + 1,
               loss_count := s.loss_count + 1,
               ping_times := s.ping_times ++ [(time, none)],
               ping_times_updated := true }
  | some v =>
      { s with total_pings := s.total_pings + 1,
               ping_times := s.ping_times ++ [(time, some v)],
               ping_times_updated := true }

/-- The whole drain loop applied to the pending channel contents, oldest
first (the channel delivers in send order). -/
def drain (s : PingApp) (received : List (Option ℚ)) : PingApp :=
  received.foldl drainStep s

/-- The loss-percentage computation of the stats label (src/main.rs:123-127). -/
def loss_percent (s : PingApp) : ℚ :=
  if s.total_pings = 0 then 0
  else ((s.loss_count : ℚ) / (s.total_pings : ℚ)) * 100

/-- **C6.** Draining a lost (NaN) sample increments both `loss_count` and
`total_pings`; draining a successful sample increments only `total_pings`;
and the displayed loss percentage equals `100 * lost_count / total_attempts`,
guarded to `0` when `total_attempts = 0`. -/
theorem drain_counters_and_loss_percent (s : PingApp) (v : ℚ) :
    (drainStep s none).loss_count = s.loss_count + 1 ∧
    (drainStep s none).total_pings = s.total_pings + 1 ∧
    (drainStep s (some v)).loss_count = s.loss_count ∧
    (drainStep s (some v)).total_pings = s.total_pings + 1 ∧
    loss_percent s =
      (if s.total_pings = 0 then 0
       else 100 * (s.loss_count : ℚ) / (s.total_pings : ℚ)) := by
  refine ⟨rfl, rfl, rfl, rfl, ?_⟩
  unfold loss_percent
  split
  · rfl
  · ring

lemma drainStep_map_fst (s : PingApp) (x : Option ℚ) :
    (drainStep s x).ping_times.map Prod.fst =
      s.ping_times.map Prod.fst ++ [((s.ping_times.length : ℚ))] := by
  cases x <;> simp [drainStep]

lemma drainStep_length (s : PingApp) (x : Option ℚ) :
    (drainStep s x).ping_times.length = s.ping_times.length + 1 := by
  cases x <;> simp [drainStep]

lemma drain_map_fst (received : List (Option ℚ)) (s : PingApp) :
    (drain s received).ping_times.map Prod.fst =
      s.ping_times.map Prod.fst ++
        (List.range' s.ping_times.length received.length).map (fun n => (n : ℚ)) := by
  induction received generalizing s with
  | nil => simp [drain]
  | cons x xs ih =>
      show (drain (drainStep s x) xs).ping_times.map Prod.fst = _
      rw [ih, drainStep_map_fst, drainStep_length, List.length_cons, List.range'_succ]
      simp

/-- **C7.** Starting from a freshly reset state, after draining any sequence of
samples — lost and successful alike — the stored x-coordinates
(`sequence_index`) are exactly `0, 1, 2, …`: increasing by exactly 1 per
sample from 0, with no gaps and no duplicates. -/
theorem sequence_index_gapless (s : PingApp) (received : List (Option ℚ)) :
    (drain (resetApp s) received).ping_times.map Prod.fst =
      (List.range received.length).map (fun n => (n : ℚ)) := by
  rw [drain_map_fst]
  simp [resetApp, List.range_eq_range']

/-- **C2 counterexample.** On a concrete state with 2 lost pings out of 3
attempts, the Reset handler leaves `loss_count = 2`: it does not set the loss
counters to 0 as the claim states. -/
theorem reset_keeps_loss_counters_concrete :
    (resetApp { ping_times := [((0 : ℚ), some 25)], stats := none,
                ping_times_updated := false, loss_count := 2,
                total_pings := 3 }).loss_count ≠ 0 := by decide

/-- **C2 (amended).** Reset empties the series (`SeriesBuffer` length becomes 0)
and the next drained sample gets `sequence_index = 0`, but both loss counters
keep their previous values: the handler clears only `ping_times`. -/
theorem reset_behaviour (s : PingApp) (x : Option ℚ) :
    (resetApp s).ping_times = [] ∧
    (resetApp s).loss_count = s.loss_count ∧
    (resetApp s).total_pings = s.total_pings ∧
    (drainStep (resetApp s) x).ping_times.map Prod.fst = [(0 : ℚ)] := by
  refine ⟨rfl, rfl, rfl, ?_⟩
  rw [drainStep_map_fst]
  simp [resetApp]

/-- Stand-in for the IP address inside a resolved `std::net::SocketAddr`;
only its identity is ever used by the embedding. -/
abbrev IpAddr := String

/-- Environment of one iteration of the sampler loop (src/main.rs:175-213):
the snapshotted address string, the outcome of
`(address, 0).to_socket_addrs()` (an error, or the resolved addresses in
resolver order), the behaviour of the external `ping` primitive on each IP,
and the wall-clock nanoseconds consumed by the resolution phase (everything
between `Instant::now()` and the `ping` call) and by the probe itself. -/
structure CycleEnv where
  address : String
  toSocketAddrs : Except String (List IpAddr)
  ping : IpAddr → Except String Unit
  resolveNanos : ℕ
  probeNanos : ℕ

/-- What one sampler-loop iteration produces: the values sent on `tx` (in
order), the string stored into the shared `error` field, and the `success`
flag that selects the pacing sleep (1 s on success, 2 s on failure). -/
structure CycleOut where
  sent : List (Option ℚ)
  error : String
  success : Bool
deriving DecidableEq

/-- `Duration::as_millis`: truncating (integer) division of the elapsed
nanoseconds by 10^6. -/
def asMillis (nanos : ℕ) : ℕ := nanos / 1000000

/-- One iteration of the sampler thread loop (src/main.rs:176-213), run at
wall-clock time `clk` (nanoseconds).  `start` is captured *before* address
resolution (`let start = Instant::now();` at line 177 precedes
`to_socket_addrs()` at line 181), so on success `start.elapsed()` covers
both the resolution and the probe.  `let _ = tx.send(..)` is modelled by
recording the sent value; each failure branch stores a message into the
shared error field and the success branch stores the empty string. -/
def samplerCycle (c : CycleEnv) (clk : ℕ) : CycleOut :=
  let start := clk
  let afterResolve := clk + c.resolveNanos
  match c.toSocketAddrs with
  | .ok addrs =>
    match addrs.head? with
    | some ip =>
      match c.ping ip with
      | .ok _ =>
          let durationNanos := afterResolve + c.probeNanos - start
          { sent := [some ((asMillis durationNanos : ℕ) : ℚ)],
            error := "", success := true }
      | .error e =>
          { sent := [none], error := "Ping failed: " ++ e, success := false }
    | none =>
        { sent := [none], error := "Could not resolve address: " ++ c.address,
          success := false }
  | .error e =>
      { sent := [none],
        error := "Invalid address: " ++ c.address ++ ". Error: " ++ e,
        success := false }

/-- **C5.** Every iteration of the sampler loop sends exactly one value on the
channel — one latency value or one lost marker — in every branch: resolution
error, empty resolution result, probe failure, probe success. -/
theorem one_sample_per_cycle (c : CycleEnv) (clk : ℕ) :
    (samplerCycle c clk).sent.length = 1 := by
  cases hr : c.toSocketAddrs with
  | error e => simp [samplerCycle, hr]
  | ok addrs =>
    cases hh : addrs.head? with
    | none => simp [samplerCycle, hr, hh]
    | some ip =>
      cases hp : c.ping ip with
      | ok u => simp [samplerCycle, hr, hh, hp]
      | error e => simp [samplerCycle, hr, hh, hp]

/-- **C1 counterexample.** A successful cycle whose resolution takes 5 ms and
whose probe takes 10 ms emits 15 ms, not the 10 ms that a probe-only window
would produce: the timed window does not start after address resolution. -/
theorem latency_not_probe_only_concrete :
    (samplerCycle { address := "8.8.8.8", toSocketAddrs := .ok ["8.8.8.8"],
                    ping := fun _ => .ok (), resolveNanos := 5000000,
                    probeNanos := 10000000 } 0).success = true ∧
    (samplerCycle { address := "8.8.8.8", toSocketAddrs := .ok ["8.8.8.8"],
                    ping := fun _ => .ok (), resolveNanos := 5000000,
                    probeNanos := 10000000 } 0).sent ≠
      [some ((asMillis 10000000 : ℕ) : ℚ)] := by
  constructor
  · rfl
  · decide

/-- **C1 (amended).** For every successful cycle the emitted latency is
`start.elapsed()` with `start` captured before address resolution: the value
is the truncated-to-milliseconds sum of resolution time and probe time, so
DNS resolution time is *included* in the reported round-trip value. -/
theorem latency_window_includes_resolution (c : CycleEnv) (clk : ℕ)
    (h : (samplerCycle c clk).success = true) :
    (samplerCycle c clk).sent =
      [some ((asMillis (c.resolveNanos + c.probeNanos) : ℕ) : ℚ)] := by
  cases hr : c.toSocketAddrs with
  | error e => simp [samplerCycle, hr] at h
  | ok addrs =>
    cases hh : addrs.head? with
    | none => simp [samplerCycle, hr, hh] at h
    | some ip =>
      cases hp : c.ping ip with
      | error e => simp [samplerCycle, hr, hh, hp] at h
      | ok u =>
          have harith : clk + c.resolveNanos + c.probeNanos - clk =
              c.resolveNanos + c.probeNanos := by omega
          simp [samplerCycle, hr, hh, hp, harith]

/-- Witness for C1 (amended): a successful cycle with 5 ms resolution and 10 ms
probe emits the 15 ms total. -/
theorem latency_window_includes_resolution_witness :
    (samplerCycle { address := "8.8.8.8", toSocketAddrs := .ok ["8.8.8.8"],
                    ping := fun _ => .ok (), resolveNanos := 5000000,
                    probeNanos := 10000000 } 0).sent =
      [some ((asMillis (5000000 + 10000000) : ℕ) : ℚ)] :=
  latency_window_includes_resolution
    { address := "8.8.8.8", toSocketAddrs := .ok ["8.8.8.8"],
      ping := fun _ => .ok (), resolveNanos := 5000000,
      probeNanos := 10000000 } 0 rfl

/-- **C10.** Every successful cycle sends a whole number of milliseconds: the
sent value is the cast of the natural number obtained by truncating the
elapsed nanoseconds with `Duration::as_millis` (division by 10^6), so
successful samples never carry sub-millisecond resolution. -/
theorem sent_value_is_whole_milliseconds (c : CycleEnv) (clk : ℕ)
    (h : (samplerCycle c clk).success = true) :
    ∃ n : ℕ, (samplerCycle c clk).sent = [some ((n : ℚ))] ∧
      n = (c.resolveNanos + c.probeNanos) / 1000000 := by
  refine ⟨asMillis (c.resolveNanos + c.probeNanos), ?_, rfl⟩
  cases hr : c.toSocketAddrs with
  | error e => simp [samplerCycle, hr] at h
  | ok addrs =>
    cases hh : addrs.head? with
    | none => simp [samplerCycle, hr, hh] at h
    | some ip =>
      cases hp : c.ping ip with
      | error e => simp [samplerCycle, hr, hh, hp] at h
      | ok u =>
          have harith : clk + c.resolveNanos + c.probeNanos - clk =
              c.resolveNanos + c.probeNanos := by omega
          simp [samplerCycle, hr, hh, hp, harith]

/-- Witness for C10: a successful probe of 12345678 ns emits a whole number of
milliseconds (12). -/
theorem sent_value_is_whole_milliseconds_witness :
    ∃ n : ℕ,
      (samplerCycle { address := "1.1.1.1", toSocketAddrs := .ok ["1.1.1.1"],
                      ping := fun _ => .ok (), resolveNanos := 0,
                      probeNanos := 12345678 } 0).sent = [some ((n : ℚ))] ∧
      n = (0 + 12345678) / 1000000 :=
  sent_value_is_whole_milliseconds
    { address := "1.1.1.1", toSocketAddrs := .ok ["1.1.1.1"],
      ping := fun _ => .ok (), resolveNanos := 0, probeNanos := 12345678 } 0 rfl

lemma append_ne_empty_left (s t : String) (h : s.length ≠ 0) : s ++ t ≠ "" := by
  intro hc
  have h2 := congrArg String.length hc
  rw [String.length_append] at h2
  have h0 : ("" : String).length = 0 := rfl
  rw [h0] at h2
  exact h (Nat.eq_zero_of_add_eq_zero_right h2)

/-- The shared error field over a run of cycles: every iteration overwrites it
(all four branches of the loop body assign `shared_data.error`), so no error
history is kept. -/
def errorAfterRun (e₀ : String) (cycles : List (CycleEnv × ℕ)) : String :=
  cycles.foldl (fun _ p => (samplerCycle p.1 p.2).error) e₀

/-- **C8.** A successful probe clears the shared error field to the empty
string; every failing cycle leaves a non-empty human-readable message there;
and after any non-empty run of cycles the field holds exactly the last
cycle's message (previous outcomes are overwritten).  The cycle function is
total, so no failure stops the loop. -/
theorem error_surface (c : CycleEnv) (clk : ℕ) :
    ((samplerCycle c clk).success = true → (samplerCycle c clk).error = "") ∧
    ((samplerCycle c clk).success = false → (samplerCycle c clk).error ≠ "") ∧
    (∀ e₀ cs, errorAfterRun e₀ (cs ++ [(c, clk)]) = (samplerCycle c clk).error) := by
  refine ⟨?_, ?_, ?_⟩
  · intro h
    cases hr : c.toSocketAddrs with
    | error e => simp [samplerCycle, hr] at h
    | ok addrs =>
      cases hh : addrs.head? with
      | none => simp [samplerCycle, hr, hh] at h
      | some ip =>
        cases hp : c.ping ip with
        | error e => simp [samplerCycle, hr, hh, hp] at h
        | ok u => simp [samplerCycle, hr, hh, hp]
  · intro h
    cases hr : c.toSocketAddrs with
    | error e =>
        simp only [samplerCycle, hr]
        apply append_ne_empty_left
        rw [String.length_append, String.length_append]
        have h17 : ("Invalid address: " : String).length = 17 := by decide
        omega
    | ok addrs =>
      cases hh : addrs.head? with
      | none =>
          simp only [samplerCycle, hr, hh]
          apply append_ne_empty_left
          decide
      | some ip =>
        cases hp : c.ping ip with
        | ok u => simp [samplerCycle, hr, hh, hp] at h
        | error e =>
            simp only [samplerCycle, hr, hh, hp]
            apply append_ne_empty_left
            decide
  · intro e₀ cs
    simp [errorAfterRun]

/-- Witness for C8: a concrete successful cycle clears the error, a concrete
failing cycle writes a non-empty message, and after a two-cycle run the field
holds the last cycle's message. -/
theorem error_surface_witness :
    (samplerCycle { address := "8.8.8.8", toSocketAddrs := .ok ["8.8.8.8"],
                    ping := fun _ => .ok (), resolveNanos := 0,
                    probeNanos := 1000000 } 0).error = "" ∧
    (samplerCycle { address := "!!!", toSocketAddrs := .error "bad host",
                    ping := fun _ => .ok (), resolveNanos := 0,
                    probeNanos := 0 } 0).error ≠ "" ∧
    errorAfterRun "stale"
        ([({ address := "8.8.8.8", toSocketAddrs := .ok ["8.8.8.8"],
             ping := fun _ => .ok (), resolveNanos := 0,
             probeNanos := 1000000 }, 0)] ++
          [({ address := "!!!", toSocketAddrs := .error "bad host",
              ping := fun _ => .ok (), resolveNanos := 0, probeNanos := 0 }, 0)]) =
      (samplerCycle { address := "!!!", toSocketAddrs := .error "bad host",
                      ping := fun _ => .ok (), resolveNanos := 0,
                      probeNanos := 0 } 0).error :=
  ⟨(error_surface { address := "8.8.8.8", toSocketAddrs := .ok ["8.8.8.8"],
                    ping := fun _ => .ok (), resolveNanos := 0,
                    probeNanos := 1000000 } 0).1 rfl,
   (error_surface { address := "!!!", toSocketAddrs := .error "bad host",
                    ping := fun _ => .ok (), resolveNanos := 0,
                    probeNanos := 0 } 0).2.1 rfl,
   (error_surface { address := "!!!", toSocketAddrs := .error "bad host",
                    ping := fun _ => .ok (), resolveNanos := 0,
                    probeNanos := 0 } 0).2.2 "stale"
     [({ address := "8.8.8.8", toSocketAddrs := .ok ["8.8.8.8"],
         ping := fun _ => .ok (), resolveNanos := 0, probeNanos := 1000000 }, 0)]⟩

/-- Per-cycle data other than the address: resolver behaviour, probe
behaviour and timings. -/
structure CycleRest where
  toSocketAddrs : Except String (List IpAddr)
  ping : IpAddr → Except String Unit
  resolveNanos : ℕ
  probeNanos : ℕ

/-- Assemble a cycle environment from a snapshotted address and the rest. -/
def mkEnv (a : String) (r : CycleRest) : CycleEnv :=
  { address := a, toSocketAddrs := r.toSocketAddrs, ping := r.ping,
    resolveNanos := r.resolveNanos, probeNanos := r.probeNanos }

/-- Interleaving model of the shared address register (`RwLock` on
`PingSharedState.address`).  The lock makes each access atomic, so a trace is
a sequence of atomic events:
* `write a` — the consumer stores a new address (src/main.rs:68-69);
* `snapshot` — the sampler takes the read lock, clones the address and drops
  the lock (src/main.rs:176-179);
* `complete r` — the sampler finishes the in-flight resolve/probe/send,
  which uses only the cloned snapshot (src/main.rs:180-213). -/
inductive SamplerEvent
  | write (a : String)
  | snapshot
  | complete (r : CycleRest)

/-- State of the interleaving model: the shared address register, the
snapshot held by an in-flight cycle, and the list of completed cycles with
the address each one actually used.  (The clock argument of the completed
cycles is irrelevant here and fixed at 0.) -/
structure TraceState where
  addr : String
  pending : Option String
  completed : List (String × CycleOut)

def stepEvent (s : TraceState) : SamplerEvent → TraceState
  | .write a => { s with addr := a }
  | .snapshot => { s with pending := some s.addr }
  | .complete r =>
      match s.pending with
      | some a =>
          { s with
            pending := none
            completed := s.completed ++ [(a, samplerCycle (mkEnv a r) 0)] }
      | none => s

def runEvents (s : TraceState) (evs : List SamplerEvent) : TraceState :=
  evs.foldl stepEvent s

lemma runEvents_append (s : TraceState) (l₁ l₂ : List SamplerEvent) :
    runEvents s (l₁ ++ l₂) = runEvents (runEvents s l₁) l₂ := by
  simp [runEvents]

lemma runEvents_writes (ws : List String) (s : TraceState) :
    runEvents s (ws.map SamplerEvent.write) = { s with addr := ws.getLastD s.addr } := by
  induction ws generalizing s with
  | nil => rfl
  | cons w ws ih =>
      show runEvents { s with addr := w } (ws.map SamplerEvent.write) = _
      rw [ih, List.getLastD_cons]

/-- **C9.** In the interleaving model, a cycle that snapshots the address `a₀`
and then completes — with any number of concurrent consumer writes `ws` in
between — completes against the snapshot `a₀`, not against any of the
written values; and the snapshot taken by the following cycle observes the
latest written value.  Reads and writes of the address are atomic (the lock
is held only for the copy), so no torn read is representable. -/
theorem snapshot_isolates_inflight_cycle (a₀ : String) (ws : List String) (r : CycleRest) :
    runEvents { addr := a₀, pending := none, completed := [] }
        (SamplerEvent.snapshot ::
          (ws.map SamplerEvent.write ++ [SamplerEvent.complete r, SamplerEvent.snapshot])) =
      { addr := ws.getLastD a₀,
        pending := some (ws.getLastD a₀),
        completed := [(a₀, samplerCycle (mkEnv a₀ r) 0)] } := by
  show runEvents { addr := a₀, pending := some a₀, completed := [] }
      (ws.map SamplerEvent.write ++ [SamplerEvent.complete r, SamplerEvent.snapshot]) = _
  rw [runEvents_append, runEvents_writes]
  rfl

end PingGraph
